import Mathlib

/-!
Verification of the battleship game core (`src/models/board.py`,
`src/models/ship.py`, `src/ai/strategies.py`, `src/ai/ai_player.py`)
against its natural-language specification.

The Python classes are embedded shallowly: mutable objects become
immutable structures, in-place mutation becomes explicit state passing,
Python `int` coordinates become `Int`, float scores become `ℚ`.
-/

namespace Bataille

/-- A grid position `(x, y)`, as the Python code's coordinate tuples. -/
abbrev Pos := Int × Int

/-- Result of `Board.receive_shot`: the Python strings `'miss'`, `'hit'`,
`'already_shot'` and the tuple `('sunk', ship_name)`. -/
inductive ShotResult where
  | miss
  | hit
  | alreadyShot
  | sunk (name : String)
deriving DecidableEq, Repr

/-- `Ship` from `src/models/ship.py`: name, size, occupied positions,
and the list of positions already hit. -/
structure Ship where
  name : String
  size : Nat
  positions : List Pos
  hits : List Pos
deriving DecidableEq, Repr

/-- `Ship.hit` (src/models/ship.py lines 53-66): if `position` is on the
ship and not yet recorded, record it and return `True`; otherwise return
`False`.  The mutated ship is returned as the second component. -/
def Ship.hit (s : Ship) (position : Pos) : Bool × Ship :=
  if position ∈ s.positions ∧ position ∉ s.hits then
    (true, { s with hits := s.hits ++ [position] })
  else
    (false, s)

/-- `Ship.is_sunk`: all cells hit. -/
def Ship.is_sunk (s : Ship) : Bool :=
  s.hits.length == s.size

/-- `Board` from `src/models/board.py`: grid size, the numpy cell grid
(0 empty, 1 ship, 2 hit ship, -1 miss), the ships, and the shot history. -/
structure Board where
  size : Nat
  grid : Pos → Int
  ships : List Ship
  shots : List Pos

/-- `Board.__init__`: all-zero grid, no ships, no shots. -/
def Board.init (size : Nat) : Board :=
  { size := size, grid := fun _ => 0, ships := [], shots := [] }

/-- `Board.add_ship`: append the ship and mark its cells with 1. -/
def Board.add_ship (b : Board) (ship : Ship) : Board :=
  { b with
    ships := b.ships ++ [ship]
    grid := fun q => if q ∈ ship.positions then 1 else b.grid q }

/-- The validity check inside `Board.place_ship_randomly`
(src/models/board.py lines 62-68): a candidate run is accepted iff every
cell's grid value is 0 (the loop sets `valid = False` and breaks at the
first nonzero cell). -/
def Board.placement_valid (b : Board) (positions : List Pos) : Bool :=
  positions.all fun p => b.grid p == 0

/-- The `for ship in self.ships: if ship.hit(position):` loop of
`Board.receive_shot`: tries each ship in order, stopping at the first
that records a hit.  Returns the (updated) hit ship, if any, and the
updated ship list. -/
def shootShips (p : Pos) : List Ship → Option Ship × List Ship
  | [] => (none, [])
  | s :: rest =>
    let r := s.hit p
    if r.1 then
      (some r.2, r.2 :: rest)
    else
      let rr := shootShips p rest
      (rr.1, s :: rr.2)

/-- `Board.receive_shot` (src/models/board.py lines 79-105): early-return
`already_shot` on a repeated position, otherwise append the shot, test
ships in order, and mark the grid 2 (hit) or -1 (miss). -/
def Board.receive_shot (b : Board) (position : Pos) : ShotResult × Board :=
  if position ∈ b.shots then
    (.alreadyShot, b)
  else
    let shots2 := b.shots ++ [position]
    match shootShips position b.ships with
    | (some s, ships2) =>
      let b2 : Board :=
        { b with shots := shots2, ships := ships2,
                 grid := fun q => if q = position then 2 else b.grid q }
      if s.is_sunk then (.sunk s.name, b2) else (.hit, b2)
    | (none, ships2) =>
      (.miss,
       { b with shots := shots2, ships := ships2,
                grid := fun q => if q = position then -1 else b.grid q })

/-- `Board.get_valid_moves` (src/models/board.py lines 116-128): row-major
loop over the grid collecting every position not in `shots`. -/
def Board.get_valid_moves (b : Board) : List Pos :=
  (List.range b.size).flatMap fun (x : Nat) =>
    ((List.range b.size).map fun (y : Nat) => (((x : Int), (y : Int)) : Pos)).filter
      fun p => decide (p ∉ b.shots)

/-- `Board.all_ships_sunk`. -/
def Board.all_ships_sunk (b : Board) : Bool :=
  b.ships.all fun s => s.is_sunk

/- ### Claim C1: receive_shot on an already-shot position -/

/-- C1: for every board and every position already present in `shots`,
`receive_shot` returns `already_shot` and returns the board completely
unchanged (same `shots`, same grid, same ships, hence same per-ship hits). -/
theorem receive_shot_already_shot (b : Board) (p : Pos) (h : p ∈ b.shots) :
    b.receive_shot p = (ShotResult.alreadyShot, b) := by
  simp [Board.receive_shot, h]

/-- A concrete board with one recorded shot, used to witness C1. -/
def boardOneShot : Board :=
  { size := 10, grid := fun _ => 0, ships := [], shots := [((0 : Int), (0 : Int))] }

/-- Witness for C1 at a concrete board and position. -/
theorem receive_shot_already_shot_witness :
    boardOneShot.receive_shot ((0 : Int), (0 : Int)) = (ShotResult.alreadyShot, boardOneShot) :=
  receive_shot_already_shot boardOneShot ((0 : Int), (0 : Int)) (by simp [boardOneShot])

/- ### Claim C2: Ship.hit return value and idempotence -/

/-- A placed length-2 ship that has already recorded a hit at `(0,0)`. -/
def shipHalfHit : Ship :=
  { name := "A", size := 2,
    positions := [((0 : Int), (0 : Int)), ((0 : Int), (1 : Int))],
    hits := [((0 : Int), (0 : Int))] }

/-- Counterexample to C2: on `shipHalfHit`, `register_hit (0,0)` returns
`false` even though `(0,0)` is one of the ship's cells, so the return
value is not `position ∈ cells`, and a second call on an already-recorded
cell does not "still return true". -/
theorem ship_hit_repeat_returns_false :
    (shipHalfHit.hit ((0 : Int), (0 : Int))).1 = false ∧
    ((0 : Int), (0 : Int)) ∈ shipHalfHit.positions := by
  constructor
  · simp [Ship.hit, shipHalfHit]
  · simp [shipHalfHit]

/-- C2 amended: `Ship.hit` returns `true` exactly when the position is on
the ship AND not yet recorded; when it does, the position is appended to
`hits`; a repeated call on the same position then returns `false` and
leaves `hits` unchanged (no double-count). -/
theorem ship_hit_characterization (s : Ship) (p : Pos) :
    ((s.hit p).1 = true ↔ p ∈ s.positions ∧ p ∉ s.hits) ∧
    ((s.hit p).2.hits = if p ∈ s.positions ∧ p ∉ s.hits then s.hits ++ [p] else s.hits) ∧
    (((s.hit p).2.hit p).1 = false) ∧
    (((s.hit p).2.hit p).2.hits = (s.hit p).2.hits) := by
  by_cases h : p ∈ s.positions ∧ p ∉ s.hits
  · simp [Ship.hit, h]
  · simp only [Ship.hit, if_neg h]
    simp [h]

/- ### Claim C6: placement validity vs shot marks -/

/-- If no ship records the hit, the ship list comes back unchanged. -/
theorem shootShips_none {p : Pos} (ships : List Ship)
    (h : (shootShips p ships).1 = none) : (shootShips p ships).2 = ships := by
  induction ships with
  | nil => rfl
  | cons s rest ih =>
    by_cases hr : (s.hit p).1
    · simp [shootShips, hr] at h
    · simp only [shootShips, hr] at h ⊢
      simp only [Bool.false_eq_true, if_false] at h ⊢
      rw [ih h]

/-- The board after a missed shot at `(0,0)` on an empty 10×10 board. -/
def boardAfterMiss : Board :=
  ((Board.init 10).receive_shot ((0 : Int), (0 : Int))).2

/-- Counterexample to C6: on `boardAfterMiss` there are no ships at all,
so no cell of the run `[(0,0), (0,1)]` is covered by a ship footprint and
both cells are in bounds, yet the placement validity check rejects the
run, because the miss mark -1 at `(0,0)` makes `grid ≠ 0`. -/
theorem placement_valid_rejects_missed_cell :
    boardAfterMiss.placement_valid [((0 : Int), (0 : Int)), ((0 : Int), (1 : Int))] = false ∧
    boardAfterMiss.ships = [] := by
  constructor
  · simp [boardAfterMiss, Board.init, Board.receive_shot, shootShips, Board.placement_valid]
  · simp [boardAfterMiss, Board.init, Board.receive_shot, shootShips]

/-- C6 amended: `place_ship_randomly` accepts a candidate run exactly when
every cell's grid value is 0; a cell where a shot missed (grid -1) makes
any run through it invalid even though the miss adds no ship footprint
(ships are unchanged by a missed shot). -/
theorem placement_invalid_after_miss (b : Board) (p : Pos) (ps : List Pos)
    (hm : (b.receive_shot p).1 = ShotResult.miss) (hp : p ∈ ps) :
    (b.receive_shot p).2.placement_valid ps = false ∧
    (b.receive_shot p).2.ships = b.ships := by
  unfold Board.receive_shot at hm ⊢
  by_cases h : p ∈ b.shots
  · simp [h] at hm
  · simp only [if_neg h] at hm ⊢
    rcases hs : shootShips p b.ships with ⟨os, ships2⟩
    rw [hs] at hm
    cases os with
    | some s =>
      by_cases hk : s.is_sunk <;> simp [hk] at hm
    | none =>
      refine ⟨?_, ?_⟩
      · simp only [Board.placement_valid, List.all_eq_false]
        exact ⟨p, hp, by simp⟩
      · have h2 : (shootShips p b.ships).2 = b.ships :=
          shootShips_none b.ships (by rw [hs])
        rw [hs] at h2
        simpa using h2

/-- Witness for the amended C6 at a concrete board, shot and run. -/
theorem placement_invalid_after_miss_witness :
    ((Board.init 10).receive_shot ((0 : Int), (0 : Int))).2.placement_valid
      [((0 : Int), (0 : Int))] = false ∧
    ((Board.init 10).receive_shot ((0 : Int), (0 : Int))).2.ships = (Board.init 10).ships :=
  placement_invalid_after_miss (Board.init 10) ((0 : Int), (0 : Int))
    [((0 : Int), (0 : Int))] (by decide) (by decide)

/- ### Claim C9: legal moves are the complement of shots -/

/-- In-bounds predicate for a grid of size `n`. -/
def inBounds (n : Nat) (p : Pos) : Prop :=
  0 ≤ p.1 ∧ p.1 < (n : Int) ∧ 0 ≤ p.2 ∧ p.2 < (n : Int)

instance (n : Nat) (p : Pos) : Decidable (inBounds n p) := by
  unfold inBounds; infer_instance

/-- All grid cells of a size-`n` board, in the row-major order of
`get_valid_moves`. -/
def allCells (n : Nat) : List Pos :=
  (List.range n).flatMap fun (x : Nat) => (List.range n).map fun (y : Nat) => (((x : Int), (y : Int)) : Pos)

theorem nodup_allCells (n : Nat) : (allCells n).Nodup := by
  unfold allCells
  rw [List.nodup_flatMap]
  constructor
  · intro x _
    refine List.Nodup.map ?_ (List.nodup_range n)
    intro a c hac
    simpa using hac
  · refine (List.pairwise_lt_range n).imp ?_
    intro a c hac
    simp only [Function.onFun]
    intro q hqa hqc
    rw [List.mem_map] at hqa hqc
    obtain ⟨y1, _, rfl⟩ := hqa
    obtain ⟨y2, _, he⟩ := hqc
    have hfst : (c : Int) = (a : Int) := congrArg Prod.fst he
    omega

theorem length_allCells (n : Nat) : (allCells n).length = n * n := by
  unfold allCells
  rw [List.length_flatMap]
  simp only [Function.comp_def, List.length_map, List.length_range]
  rw [List.map_const']
  simp [List.sum_replicate, smul_eq_mul]

theorem mem_allCells (n : Nat) (p : Pos) : p ∈ allCells n ↔ inBounds n p := by
  unfold allCells inBounds
  rw [List.mem_flatMap]
  constructor
  · rintro ⟨x, hx, hp⟩
    rw [List.mem_map] at hp
    obtain ⟨y, hy, rfl⟩ := hp
    rw [List.mem_range] at hx hy
    refine ⟨?_, ?_, ?_, ?_⟩ <;> dsimp only <;> omega
  · rintro ⟨h1, h2, h3, h4⟩
    refine ⟨p.1.toNat, ?_, ?_⟩
    · rw [List.mem_range]; omega
    · rw [List.mem_map]
      refine ⟨p.2.toNat, ?_, ?_⟩
      · rw [List.mem_range]; omega
      · obtain ⟨a, c⟩ := p
        simp only [Prod.mk.injEq]
        simp only at h1 h2 h3 h4
        constructor <;> omega

theorem get_valid_moves_eq (b : Board) :
    b.get_valid_moves = (allCells b.size).filter fun p => decide (p ∉ b.shots) := by
  unfold Board.get_valid_moves allCells
  rw [List.filter_flatMap]

/-- Removing one element from a duplicate-free list by filtering drops the
length by exactly one. -/
theorem length_filter_ne_of_mem (l : List Pos) (a : Pos)
    (hl : l.Nodup) (ha : a ∈ l) :
    (l.filter fun q => decide (q ≠ a)).length + 1 = l.length := by
  induction l with
  | nil => simp at ha
  | cons b t ih =>
    rcases List.nodup_cons.mp hl with ⟨hbt, hnt⟩
    by_cases hba : b = a
    · subst hba
      have hfa : t.filter (fun q => decide (q ≠ b)) = t := by
        rw [List.filter_eq_self]
        intro x hx
        simp only [ne_eq, decide_eq_true_eq]
        rintro rfl
        exact hbt hx
      rw [List.filter_cons_of_neg (by simp)]
      rw [hfa]
      simp
    · have hat : a ∈ t := by
        rcases List.mem_cons.mp ha with h | h
        · exact absurd h.symm hba
        · exact h
      rw [List.filter_cons_of_pos (by simp [hba])]
      simp only [List.length_cons]
      have := ih hnt hat
      omega

/-- Filtering out a duplicate-free sublist from a duplicate-free list
removes exactly its length. -/
theorem length_filter_not_mem :
    ∀ (s l : List Pos), l.Nodup → s.Nodup → (∀ p ∈ s, p ∈ l) →
    (l.filter fun q => decide (q ∉ s)).length + s.length = l.length := by
  intro s
  induction s with
  | nil => intro l _ _ _; simp
  | cons a s ih =>
    intro l hl hs hsub
    rcases List.nodup_cons.mp hs with ⟨has, hns⟩
    have hstep : (l.filter fun q => decide (q ∉ a :: s)) =
        ((l.filter fun q => decide (q ∉ s)).filter fun q => decide (q ≠ a)) := by
      rw [List.filter_filter]
      apply List.filter_congr
      intro x _
      by_cases h1 : x = a <;> by_cases h2 : x ∈ s <;> simp [h1, h2]
    have hmem : a ∈ l.filter fun q => decide (q ∉ s) := by
      rw [List.mem_filter]
      exact ⟨hsub a (List.mem_cons_self a s), by simpa using has⟩
    have hnf : (l.filter fun q => decide (q ∉ s)).Nodup := List.Nodup.filter _ hl
    have h1 := length_filter_ne_of_mem _ a hnf hmem
    have h2 := ih l hl hns fun p hp => hsub p (List.mem_cons_of_mem _ hp)
    rw [hstep]
    simp only [List.length_cons]
    omega

/-- The shot history and size after `receive_shot`: the size never
changes, and the shot is appended exactly when it was not already taken. -/
theorem receive_shot_shots_size (b : Board) (p : Pos) :
    ((b.receive_shot p).2).size = b.size ∧
    ((b.receive_shot p).2).shots = (if p ∈ b.shots then b.shots else b.shots ++ [p]) := by
  unfold Board.receive_shot
  by_cases h : p ∈ b.shots
  · simp [h]
  · simp only [if_neg h]
    rcases hs : shootShips p b.ships with ⟨os, ships2⟩
    cases os with
    | none => simp [h]
    | some s => by_cases hk : s.is_sunk <;> simp [h, hk]

/-- Sequential application of `receive_shot`, modelling a sequence of
calls on a board. -/
def applyShots (b : Board) : List Pos → Board
  | [] => b
  | p :: ps => applyShots (b.receive_shot p).2 ps

theorem applyShots_invariant (ps : List Pos) (b : Board)
    (hn : b.shots.Nodup) (hin : ∀ q ∈ b.shots, inBounds b.size q)
    (hps : ∀ q ∈ ps, inBounds b.size q) :
    (applyShots b ps).size = b.size ∧
    (applyShots b ps).shots.Nodup ∧
    (∀ q ∈ (applyShots b ps).shots, inBounds b.size q) := by
  induction ps generalizing b with
  | nil => exact ⟨rfl, hn, hin⟩
  | cons p ps ih =>
    rcases receive_shot_shots_size b p with ⟨hsz, hsh⟩
    have hp : inBounds b.size p := hps p (List.mem_cons_self p ps)
    have hn2 : ((b.receive_shot p).2).shots.Nodup := by
      rw [hsh]; split
      · exact hn
      · next hmem =>
        have he : b.shots ++ [p] = b.shots.concat p := by
          simp [List.concat_eq_append]
        rw [he]
        exact List.Nodup.concat hmem hn
    have hin2 : ∀ q ∈ ((b.receive_shot p).2).shots, inBounds ((b.receive_shot p).2).size q := by
      rw [hsh, hsz]; split
      · exact hin
      · intro q hq
        rcases List.mem_append.mp hq with h | h
        · exact hin q h
        · rwa [List.mem_singleton.mp h]
    have hps2 : ∀ q ∈ ps, inBounds ((b.receive_shot p).2).size q := by
      rw [hsz]; exact fun q hq => hps q (List.mem_cons_of_mem _ hq)
    rcases ih (b.receive_shot p).2 hn2 hin2 hps2 with ⟨h1, h2, h3⟩
    refine ⟨by rw [applyShots, h1, hsz], by rw [applyShots]; exact h2, ?_⟩
    rw [applyShots]
    intro q hq
    have := h3 q hq
    rwa [hsz] at this

/-- Counting: on any board whose shots are duplicate-free and in bounds,
the legal moves and the shots partition the grid. -/
theorem valid_moves_count (b : Board) (hn : b.shots.Nodup)
    (hin : ∀ q ∈ b.shots, inBounds b.size q) :
    b.get_valid_moves.length + b.shots.length = b.size * b.size := by
  rw [get_valid_moves_eq]
  have h := length_filter_not_mem b.shots (allCells b.size) (nodup_allCells _) hn
    (fun q hq => (mem_allCells _ _).mpr (hin q hq))
  rwa [length_allCells] at h

/-- C9: for every board reachable from a fresh board by a sequence of
in-bounds `receive_shot` calls, `get_valid_moves().length + shots.length
= size²`, `shots` has no duplicates, and `get_valid_moves` is exactly the
row-major complement of `shots` in the grid. -/
theorem legal_moves_complement (b0 : Board) (ps : List Pos)
    (h0 : b0.shots = []) (hin : ∀ q ∈ ps, inBounds b0.size q) :
    (applyShots b0 ps).get_valid_moves.length + (applyShots b0 ps).shots.length
      = b0.size ^ 2 ∧
    (applyShots b0 ps).shots.Nodup ∧
    (applyShots b0 ps).get_valid_moves =
      (allCells b0.size).filter fun q => decide (q ∉ (applyShots b0 ps).shots) := by
  obtain ⟨hsz, hnd, hib⟩ := applyShots_invariant ps b0 (by simp [h0]) (by simp [h0]) hin
  have hib2 : ∀ q ∈ (applyShots b0 ps).shots, inBounds (applyShots b0 ps).size q := by
    rw [hsz]; exact hib
  refine ⟨?_, hnd, ?_⟩
  · have h := valid_moves_count (applyShots b0 ps) hnd hib2
    rw [hsz] at h
    rw [h]; ring
  · rw [get_valid_moves_eq, hsz]

/-- Witness for C9 on a concrete 2×2 board and shot sequence containing a
repeat. -/
theorem legal_moves_complement_witness :
    (applyShots (Board.init 2) [((0 : Int), (0 : Int)), ((1 : Int), (1 : Int)),
        ((0 : Int), (0 : Int))]).get_valid_moves.length +
      (applyShots (Board.init 2) [((0 : Int), (0 : Int)), ((1 : Int), (1 : Int)),
        ((0 : Int), (0 : Int))]).shots.length = (Board.init 2).size ^ 2 ∧
    (applyShots (Board.init 2) [((0 : Int), (0 : Int)), ((1 : Int), (1 : Int)),
        ((0 : Int), (0 : Int))]).shots.Nodup ∧
    (applyShots (Board.init 2) [((0 : Int), (0 : Int)), ((1 : Int), (1 : Int)),
        ((0 : Int), (0 : Int))]).get_valid_moves =
      (allCells (Board.init 2).size).filter fun q =>
        decide (q ∉ (applyShots (Board.init 2) [((0 : Int), (0 : Int)),
          ((1 : Int), (1 : Int)), ((0 : Int), (0 : Int))]).shots) :=
  legal_moves_complement (Board.init 2)
    [((0 : Int), (0 : Int)), ((1 : Int), (1 : Int)), ((0 : Int), (0 : Int))]
    rfl (by decide)

/- ### Hunt-Target Strategy (src/ai/strategies.py) -/

/-- The Python strings `"horizontal"` / `"vertical"`. -/
inductive Direction where
  | horizontal
  | vertical
deriving DecidableEq, Repr

/-- `HuntTargetStrategy` state: current un-sunk hits, the stack of cells
to explore, and the identified direction (`None` initially). -/
structure HuntTargetStrategy where
  hits : List Pos
  hit_stack : List Pos
  direction : Option Direction
deriving DecidableEq, Repr

/-- `HuntTargetStrategy.__init__`. -/
def HuntTargetStrategy.init : HuntTargetStrategy :=
  { hits := [], hit_stack := [], direction := none }

/-- Python `min` over the (nonempty at every call site) coordinate lists;
`min()` of an empty sequence raises in Python, modelled by a dummy 0. -/
def listMin : List Int → Int
  | [] => 0
  | a :: rest => rest.foldl min a

/-- Python `max`, as `listMin`. -/
def listMax : List Int → Int
  | [] => 0
  | a :: rest => rest.foldl max a

/-- `identify_direction` (strategies.py lines 142-149).  Note the Python
generator is lazy: with no hits, `all(...)` is vacuously true and
`self.hits[0]` is never evaluated, so direction becomes horizontal. -/
def HuntTargetStrategy.identify_direction (st : HuntTargetStrategy) : HuntTargetStrategy :=
  match st.hits with
  | [] => { st with direction := some .horizontal }
  | h0 :: _ =>
    if st.hits.all fun h => h.1 == h0.1 then { st with direction := some .horizontal }
    else if st.hits.all fun h => h.2 == h0.2 then { st with direction := some .vertical }
    else st

/-- `add_directional_targets` (strategies.py lines 151-191): clear the
stack, then push the cell one past each extremity of the hit line when it
is in bounds and not already shot. -/
def HuntTargetStrategy.add_directional_targets (st : HuntTargetStrategy)
    (position : Pos) (b : Board) : HuntTargetStrategy :=
  match st.direction with
  | some .horizontal =>
    let min_y := listMin (st.hits.map Prod.snd)
    let max_y := listMax (st.hits.map Prod.snd)
    let s1 : List Pos :=
      if 0 ≤ min_y - 1 ∧ min_y - 1 < (b.size : Int) ∧ (position.1, min_y - 1) ∉ b.shots then
        [(position.1, min_y - 1)]
      else []
    let s2 : List Pos :=
      if 0 ≤ max_y + 1 ∧ max_y + 1 < (b.size : Int) ∧ (position.1, max_y + 1) ∉ b.shots then
        s1 ++ [(position.1, max_y + 1)]
      else s1
    { st with hit_stack := s2 }
  | some .vertical =>
    let min_x := listMin (st.hits.map Prod.fst)
    let max_x := listMax (st.hits.map Prod.fst)
    let s1 : List Pos :=
      if 0 ≤ min_x - 1 ∧ min_x - 1 < (b.size : Int) ∧ (min_x - 1, position.2) ∉ b.shots then
        [(min_x - 1, position.2)]
      else []
    let s2 : List Pos :=
      if 0 ≤ max_x + 1 ∧ max_x + 1 < (b.size : Int) ∧ (max_x + 1, position.2) ∉ b.shots then
        s1 ++ [(max_x + 1, position.2)]
      else s1
    { st with hit_stack := s2 }
  | none => { st with hit_stack := [] }

/-- `add_opposite_direction_targets` (strategies.py lines 193-235). -/
def HuntTargetStrategy.add_opposite_direction_targets (st : HuntTargetStrategy)
    (b : Board) : HuntTargetStrategy :=
  if st.hits = [] then st
  else
    match st.direction with
    | some .horizontal =>
      let min_y := listMin (st.hits.map Prod.snd)
      let max_y := listMax (st.hits.map Prod.snd)
      let x := (st.hits.head?.getD (0, 0)).1
      let stack : List Pos :=
        if (x, max_y + 1) ∈ b.shots ∧ (x, min_y - 1) ∉ b.shots ∧
            0 ≤ min_y - 1 ∧ min_y - 1 < (b.size : Int) then
          [(x, min_y - 1)]
        else if (x, min_y - 1) ∈ b.shots ∧ (x, max_y + 1) ∉ b.shots ∧
            0 ≤ max_y + 1 ∧ max_y + 1 < (b.size : Int) then
          [(x, max_y + 1)]
        else []
      { st with hit_stack := stack }
    | some .vertical =>
      let min_x := listMin (st.hits.map Prod.fst)
      let max_x := listMax (st.hits.map Prod.fst)
      let y := (st.hits.head?.getD (0, 0)).2
      let stack : List Pos :=
        if (max_x + 1, y) ∈ b.shots ∧ (min_x - 1, y) ∉ b.shots ∧
            0 ≤ min_x - 1 ∧ min_x - 1 < (b.size : Int) then
          [(min_x - 1, y)]
        else if (min_x - 1, y) ∈ b.shots ∧ (max_x + 1, y) ∉ b.shots ∧
            0 ≤ max_x + 1 ∧ max_x + 1 < (b.size : Int) then
          [(max_x + 1, y)]
        else []
      { st with hit_stack := stack }
    | none => st

/-- `process_result` (strategies.py lines 97-140).  A repeated-shot result
matches none of the Python branches and leaves the state unchanged. -/
def HuntTargetStrategy.process_result (st : HuntTargetStrategy) (position : Pos)
    (result : ShotResult) (b : Board) : HuntTargetStrategy :=
  match result with
  | .hit =>
    let st1 := { st with hits := st.hits ++ [position] }
    let st2 := if st1.hits.length ≥ 2 then st1.identify_direction else st1
    if st2.direction.isSome then
      st2.add_directional_targets position b
    else
      let adjacent : List Pos :=
        [(position.1 + 1, position.2), (position.1 - 1, position.2),
         (position.1, position.2 + 1), (position.1, position.2 - 1)]
      let valid := adjacent.filter fun q =>
        decide (0 ≤ q.1 ∧ q.1 < (b.size : Int) ∧ 0 ≤ q.2 ∧ q.2 < (b.size : Int) ∧ q ∉ b.shots)
      { st2 with hit_stack := st2.hit_stack ++ valid }
  | .miss =>
    if st.direction.isSome ∧ st.hits.length ≥ 2 then
      st.add_opposite_direction_targets b
    else st
  | .sunk _ => { hits := [], hit_stack := [], direction := none }
  | .alreadyShot => st

/-- `get_next_target` (strategies.py lines 237-252): pop the last stack
entry; return it if still a valid move, else return `None` (the pop
happens either way). -/
def HuntTargetStrategy.get_next_target (st : HuntTargetStrategy) (b : Board) :
    Option Pos × HuntTargetStrategy :=
  match st.hit_stack.getLast? with
  | some next_move =>
    let st2 := { st with hit_stack := st.hit_stack.dropLast }
    if next_move ∈ b.get_valid_moves then (some next_move, st2) else (none, st2)
  | none => (none, st)

/- ### Claim C4: processing a Sunk result -/

/-- A sunk one-cell ship. -/
def shipSunkA : Ship :=
  { name := "A", size := 1, positions := [((0 : Int), (0 : Int))],
    hits := [((0 : Int), (0 : Int))] }

/-- A second, partially hit ship. -/
def shipPartB : Ship :=
  { name := "B", size := 2,
    positions := [((5 : Int), (5 : Int)), ((5 : Int), (6 : Int))],
    hits := [((5 : Int), (5 : Int))] }

/-- A board carrying both ships and the two hits. -/
def boardTwoShips : Board :=
  { size := 10
    grid := fun q =>
      if q = ((0 : Int), (0 : Int)) then 2
      else if q = ((5 : Int), (5 : Int)) then 2
      else if q = ((5 : Int), (6 : Int)) then 1
      else 0
    ships := [shipSunkA, shipPartB]
    shots := [((0 : Int), (0 : Int)), ((5 : Int), (5 : Int))] }

/-- Engine state holding active hits from both ships and a nonempty
frontier. -/
def stTwoShipHits : HuntTargetStrategy :=
  { hits := [((0 : Int), (0 : Int)), ((5 : Int), (5 : Int))],
    hit_stack := [((5 : Int), (6 : Int))],
    direction := none }

/-- Counterexample to C4: processing `Sunk "A"` wipes the whole state,
removing the active hit `(5,5)` even though it is not a cell of the sunk
ship `A`, and clearing the frontier although an active hit remained. -/
theorem hunt_sunk_clears_everything :
    stTwoShipHits.process_result ((0 : Int), (0 : Int))
        (ShotResult.sunk "A") boardTwoShips =
      { hits := [], hit_stack := [], direction := none } ∧
    ((5 : Int), (5 : Int)) ∈ stTwoShipHits.hits ∧
    ((5 : Int), (5 : Int)) ∉ shipSunkA.positions := by
  refine ⟨rfl, by decide, by decide⟩

/-- C4 amended: on any `Sunk` result the engine unconditionally resets:
all active hits (including hits belonging to other, unsunk ships), the
frontier, and the orientation are cleared, with no spatial-containment
matching against the sunk ship's cells. -/
theorem hunt_sunk_resets (st : HuntTargetStrategy) (position : Pos)
    (name : String) (b : Board) :
    st.process_result position (ShotResult.sunk name) b =
      { hits := [], hit_stack := [], direction := none } :=
  rfl

/- ### Claim C5: empty frontier with active hits -/

/-- Engine state with one active hit and an empty frontier. -/
def stActiveNoFrontier : HuntTargetStrategy :=
  { hits := [((3 : Int), (3 : Int))], hit_stack := [], direction := none }

/-- Counterexample to C5: with an empty frontier but an active hit, the
engine reports no forced target instead of regenerating candidates. -/
theorem get_next_target_no_regeneration :
    (stActiveNoFrontier.get_next_target (Board.init 10)).1 = none ∧
    stActiveNoFrontier.hits ≠ [] := by
  refine ⟨rfl, by decide⟩

/-- C5 amended: whenever the frontier is empty, `get_next_target` returns
no forced target and leaves the state unchanged, even if active hits
remain; no frontier regeneration occurs (the caller falls back to the
move scorer). -/
theorem get_next_target_empty_frontier (st : HuntTargetStrategy) (b : Board)
    (h : st.hit_stack = []) :
    st.get_next_target b = (none, st) := by
  simp [HuntTargetStrategy.get_next_target, h]

/-- Witness for the amended C5. -/
theorem get_next_target_empty_frontier_witness :
    stActiveNoFrontier.get_next_target (Board.init 10) = (none, stActiveNoFrontier) :=
  get_next_target_empty_frontier stActiveNoFrontier (Board.init 10) rfl

/- ### Claim C7: two horizontal hits resolve direction and frontier -/

/-- First hit at `(3,4)` from the idle state: one recorded hit, direction
still unresolved (whatever board is in play). -/
theorem hunt_first_hit (b1 : Board) :
    (HuntTargetStrategy.init.process_result ((3 : Int), (4 : Int))
        ShotResult.hit b1).hits = [((3 : Int), (4 : Int))] ∧
    (HuntTargetStrategy.init.process_result ((3 : Int), (4 : Int))
        ShotResult.hit b1).direction = none := by
  simp [HuntTargetStrategy.process_result, HuntTargetStrategy.init]

/-- Second hit at `(3,5)` on any state holding exactly the hit `(3,4)`
with unresolved direction: direction resolves horizontal and the frontier
is rebuilt as exactly `[(3,3), (3,6)]`. -/
theorem hunt_second_hit (st : HuntTargetStrategy) (b2 : Board)
    (hh : st.hits = [((3 : Int), (4 : Int))]) (hd : st.direction = none)
    (hsz : b2.size = 10)
    (h33 : ((3 : Int), (3 : Int)) ∉ b2.shots)
    (h36 : ((3 : Int), (6 : Int)) ∉ b2.shots) :
    (st.process_result ((3 : Int), (5 : Int)) ShotResult.hit b2).direction =
      some Direction.horizontal ∧
    (st.process_result ((3 : Int), (5 : Int)) ShotResult.hit b2).hit_stack =
      [((3 : Int), (3 : Int)), ((3 : Int), (6 : Int))] := by
  obtain ⟨hits, stack, dir⟩ := st
  simp only at hh hd
  subst hh
  subst hd
  simp [HuntTargetStrategy.process_result, HuntTargetStrategy.identify_direction,
    HuntTargetStrategy.add_directional_targets, listMin, listMax, hsz, h33, h36]

/-- C7: from the idle state, a hit at `(3,4)` (board `b1` holding that
shot) followed by a hit at `(3,5)` (board `b2`, a 10×10 board whose shots
do not include `(3,3)` or `(3,6)`) resolves the direction to horizontal
with frontier exactly `[(3,3), (3,6)]`. -/
theorem hunt_two_hits_horizontal (b1 b2 : Board) (hsz : b2.size = 10)
    (h33 : ((3 : Int), (3 : Int)) ∉ b2.shots)
    (h36 : ((3 : Int), (6 : Int)) ∉ b2.shots) :
    ((HuntTargetStrategy.init.process_result ((3 : Int), (4 : Int)) ShotResult.hit
        b1).process_result ((3 : Int), (5 : Int)) ShotResult.hit b2).direction =
      some Direction.horizontal ∧
    ((HuntTargetStrategy.init.process_result ((3 : Int), (4 : Int)) ShotResult.hit
        b1).process_result ((3 : Int), (5 : Int)) ShotResult.hit b2).hit_stack =
      [((3 : Int), (3 : Int)), ((3 : Int), (6 : Int))] := by
  obtain ⟨hh, hd⟩ := hunt_first_hit b1
  exact hunt_second_hit _ b2 hh hd hsz h33 h36

/-- The board as it stands when the first hit is processed. -/
def boardShots1 : Board :=
  { size := 10, grid := fun _ => 0, ships := [], shots := [((3 : Int), (4 : Int))] }

/-- The board as it stands when the second hit is processed. -/
def boardShots2 : Board :=
  { size := 10, grid := fun _ => 0, ships := [],
    shots := [((3 : Int), (4 : Int)), ((3 : Int), (5 : Int))] }

/-- Witness for C7 on concrete boards. -/
theorem hunt_two_hits_horizontal_witness :
    ((HuntTargetStrategy.init.process_result ((3 : Int), (4 : Int)) ShotResult.hit
        boardShots1).process_result ((3 : Int), (5 : Int)) ShotResult.hit
        boardShots2).direction = some Direction.horizontal ∧
    ((HuntTargetStrategy.init.process_result ((3 : Int), (4 : Int)) ShotResult.hit
        boardShots1).process_result ((3 : Int), (5 : Int)) ShotResult.hit
        boardShots2).hit_stack = [((3 : Int), (3 : Int)), ((3 : Int), (6 : Int))] :=
  hunt_two_hits_horizontal boardShots1 boardShots2 rfl (by decide) (by decide)

/- ### Claim C10: the deployed AI ignores Miss results -/

/-- The AI-strategy state of `AIPlayer` (src/ai/ai_player.py): the last
hit and the stack of adjacent cells to explore. -/
structure AIPlayer where
  last_hit : Option Pos
  hit_stack : List Pos
deriving DecidableEq, Repr

/-- `AIPlayer.process_shot_result` (ai_player.py lines 112-142).  The
`random.shuffle` of the stack on a hit is modelled by an arbitrary
permutation function `shuffle`.  A `'miss'` string matches neither the
`== "hit"` branch nor the `result[0] == "sunk"` branch
(`"miss"[0] = 'm'`), so nothing changes; likewise for `'already_shot'`. -/
def AIPlayer.process_shot_result (ai : AIPlayer) (shuffle : List Pos → List Pos)
    (position : Pos) (result : ShotResult) (b : Board) : AIPlayer :=
  match result with
  | .hit =>
    let adjacent : List Pos :=
      [(position.1 + 1, position.2), (position.1 - 1, position.2),
       (position.1, position.2 + 1), (position.1, position.2 - 1)]
    let valid := adjacent.filter fun q =>
      decide (0 ≤ q.1 ∧ q.1 < (b.size : Int) ∧ 0 ≤ q.2 ∧ q.2 < (b.size : Int) ∧ q ∉ b.shots)
    { last_hit := some position, hit_stack := shuffle (ai.hit_stack ++ valid) }
  | .sunk _ => { last_hit := none, hit_stack := [] }
  | .miss => ai
  | .alreadyShot => ai

/-- C10: for every AI state, shuffle, position and board, a `Miss` result
leaves `last_hit` and `hit_stack` (the whole AI state) unchanged. -/
theorem ai_process_miss_frame (ai : AIPlayer) (shuffle : List Pos → List Pos)
    (position : Pos) (b : Board) :
    ai.process_shot_result shuffle position ShotResult.miss b = ai :=
  rfl

/- ### Move scoring (CenterWeightStrategy, CheckerboardStrategy, AIPlayer.evaluate_moves) -/

/-- Manhattan distance from `move` to the code's center
`(size // 2, size // 2)` (the same formula appears in
`CenterWeightStrategy.evaluate_move` and `AIPlayer.evaluate_moves`). -/
def distance_to_center (size : Nat) (move : Pos) : Nat :=
  (move.1 - (size : Int) / 2).natAbs + (move.2 - (size : Int) / 2).natAbs

/-- `CenterWeightStrategy.evaluate_move` (strategies.py lines 44-66):
`(max_distance - distance) / max_distance` with `max_distance = size - 1`,
in exact rational arithmetic in place of Python float division. -/
def CenterWeightStrategy.evaluate_move (size : Nat) (move : Pos) : ℚ :=
  ((size : ℚ) - 1 - (distance_to_center size move : ℚ)) / ((size : ℚ) - 1)

/-- `CheckerboardStrategy.evaluate_move` (strategies.py lines 69-85). -/
def CheckerboardStrategy.evaluate_move (move : Pos) : ℚ :=
  if (move.1 + move.2) % 2 = 0 then 1 else 0

/-- The per-cell score computed by the deployed scorer
`AIPlayer.evaluate_moves` (ai_player.py lines 48-91): start at 0, subtract
`distance_to_center * 0.5`, add `hit_rate * 10` when the historical data
has matching rows for this cell (`hist move = some rate` models that
case, `none` the no-matching-data case), and add 1 on checkerboard
parity. -/
def AIPlayer.move_score (size : Nat) (hist : Pos → Option ℚ) (move : Pos) : ℚ :=
  let base : ℚ := 0 - (distance_to_center size move : ℚ) * (1 / 2)
  let withHist : ℚ :=
    match hist move with
    | some rate => base + rate * 10
    | none => base
  if (move.1 + move.2) % 2 = 0 then withHist + 1 else withHist

/-- Modelled from the spec (§4.3), for comparison with the deployed
scorer: the weighted sum `center×1.0 + parity×1.5 + historical×2.0`,
where the historical-affinity signal lies in [0,10] (0 with no data). -/
def specMoveScore (size : Nat) (histAffinity : Pos → ℚ) (move : Pos) : ℚ :=
  CenterWeightStrategy.evaluate_move size move * 1 +
    CheckerboardStrategy.evaluate_move move * (3 / 2) +
    histAffinity move * 2

/- ### Claim C3: the deployed score is not the spec's weighted sum -/

/-- Counterexample to C3: with no historical data, on a 10×10 board the
deployed scorer gives `(0,0)` the score `-4`, while the claimed weighted
sum `center×1.0 + parity×1.5 + historical×2.0` gives `25/18`. -/
theorem move_score_not_spec_weighted_sum :
    AIPlayer.move_score 10 (fun _ => none) ((0 : Int), (0 : Int)) = -4 ∧
    specMoveScore 10 (fun _ => 0) ((0 : Int), (0 : Int)) = 25 / 18 ∧
    AIPlayer.move_score 10 (fun _ => none) ((0 : Int), (0 : Int)) ≠
      specMoveScore 10 (fun _ => 0) ((0 : Int), (0 : Int)) := by
  have h1 : AIPlayer.move_score 10 (fun _ => none) ((0 : Int), (0 : Int)) = -4 := by
    norm_num [AIPlayer.move_score, distance_to_center]
  have h2 : specMoveScore 10 (fun _ => 0) ((0 : Int), (0 : Int)) = 25 / 18 := by
    norm_num [specMoveScore, CenterWeightStrategy.evaluate_move,
      CheckerboardStrategy.evaluate_move, distance_to_center]
  refine ⟨h1, h2, ?_⟩
  rw [h1, h2]
  norm_num

/-- The historical contribution of the deployed scorer: `rate * 10` when
data matches, else 0. -/
def histContrib (hist : Pos → Option ℚ) (move : Pos) : ℚ :=
  match hist move with
  | some rate => rate * 10
  | none => 0

/-- C3 amended: the deployed scorer's score of a cell equals
`-(distance_to_center / 2) + historical + parity`, where parity adds 1
exactly on checkerboard cells (weight 1, not 1.5), the center term is
`-0.5` per Manhattan step (not the normalized center-bias signal), and
the historical term — the only part matching the claim — lies in [0,10]
whenever every matching hit-rate lies in [0,1] (0 with no data). -/
theorem move_score_formula (size : Nat) (hist : Pos → Option ℚ) (move : Pos)
    (hb : ∀ r, hist move = some r → 0 ≤ r ∧ r ≤ 1) :
    AIPlayer.move_score size hist move =
      -((distance_to_center size move : ℚ) / 2) + histContrib hist move +
        (if (move.1 + move.2) % 2 = 0 then 1 else 0) ∧
    0 ≤ histContrib hist move ∧ histContrib hist move ≤ 10 := by
  unfold AIPlayer.move_score histContrib
  rcases hr : hist move with _ | r
  · dsimp only
    constructor
    · split <;> ring
    · norm_num
  · dsimp only
    obtain ⟨h0, h1⟩ := hb r hr
    constructor
    · split <;> ring
    · constructor <;> nlinarith

/-- Witness for the amended C3 at a concrete size, history and cell. -/
theorem move_score_formula_witness :
    AIPlayer.move_score 10 (fun _ => some (1 / 2 : ℚ)) ((0 : Int), (0 : Int)) =
      -((distance_to_center 10 ((0 : Int), (0 : Int)) : ℚ) / 2) +
        histContrib (fun _ => some (1 / 2 : ℚ)) ((0 : Int), (0 : Int)) +
        (if ((0 : Int) + (0 : Int)) % 2 = 0 then 1 else 0) ∧
    0 ≤ histContrib (fun _ => some (1 / 2 : ℚ)) ((0 : Int), (0 : Int)) ∧
    histContrib (fun _ => some (1 / 2 : ℚ)) ((0 : Int), (0 : Int)) ≤ 10 :=
  move_score_formula 10 (fun _ => some (1 / 2 : ℚ)) ((0 : Int), (0 : Int))
    (fun r hr => by
      rw [Option.some.injEq] at hr
      rw [← hr]
      norm_num)

/- ### Claim C8: the center-bias signal -/

/-- Counterexample to C8: on the default 10×10 board the corner `(0,0)`
is 10 Manhattan steps from the center `(5,5)` while `max_distance = 9`,
so the center-bias value is `-1/9`, outside the claimed range [0,1]. -/
theorem center_bias_negative_at_corner :
    CenterWeightStrategy.evaluate_move 10 ((0 : Int), (0 : Int)) = -(1 / 9) ∧
    ¬ (0 ≤ CenterWeightStrategy.evaluate_move 10 ((0 : Int), (0 : Int))) := by
  have h : CenterWeightStrategy.evaluate_move 10 ((0 : Int), (0 : Int)) = -(1 / 9) := by
    norm_num [CenterWeightStrategy.evaluate_move, distance_to_center]
  refine ⟨h, ?_⟩
  rw [h]
  norm_num

/-- C8 amended: for every board size N ≥ 2 the center-bias signal equals
`(max_distance − manhattan_distance_to_center)/max_distance` with
`max_distance = N − 1`, is at most 1 with equality exactly at the single
center cell `(N//2, N//2)`, and is monotonically non-increasing in the
Manhattan distance from the center; it is not bounded below by 0 (on even
N the far corners exceed `max_distance` and score negatively). -/
theorem center_bias_characterization (size : Nat) (hsz : 2 ≤ size) (p q : Pos) :
    CenterWeightStrategy.evaluate_move size p =
      ((size : ℚ) - 1 - (distance_to_center size p : ℚ)) / ((size : ℚ) - 1) ∧
    CenterWeightStrategy.evaluate_move size p ≤ 1 ∧
    (CenterWeightStrategy.evaluate_move size p = 1 ↔
      p = ((size : Int) / 2, (size : Int) / 2)) ∧
    (distance_to_center size p ≤ distance_to_center size q →
      CenterWeightStrategy.evaluate_move size q ≤
        CenterWeightStrategy.evaluate_move size p) := by
  have hM : (0 : ℚ) < (size : ℚ) - 1 := by
    have h2 : (2 : ℚ) ≤ (size : ℚ) := by exact_mod_cast hsz
    linarith
  refine ⟨rfl, ?_, ?_, ?_⟩
  · unfold CenterWeightStrategy.evaluate_move
    rw [div_le_one hM]
    have hd : (0 : ℚ) ≤ (distance_to_center size p : ℚ) := Nat.cast_nonneg _
    linarith
  · unfold CenterWeightStrategy.evaluate_move
    rw [div_eq_iff (ne_of_gt hM), one_mul, sub_eq_self]
    rw [Nat.cast_eq_zero]
    unfold distance_to_center
    rw [Prod.ext_iff]
    constructor <;> intro h <;> omega
  · intro hle
    unfold CenterWeightStrategy.evaluate_move
    rw [div_le_div_iff_of_pos_right hM]
    have : (distance_to_center size p : ℚ) ≤ (distance_to_center size q : ℚ) := by
      exact_mod_cast hle
    linarith

/-- Witness for the amended C8 on the 10×10 board: score 1 exactly at the
center `(5,5)`, and the corner scores at most the center. -/
theorem center_bias_characterization_witness :
    CenterWeightStrategy.evaluate_move 10 ((5 : Int), (5 : Int)) = 1 ∧
    CenterWeightStrategy.evaluate_move 10 ((0 : Int), (0 : Int)) ≤
      CenterWeightStrategy.evaluate_move 10 ((5 : Int), (5 : Int)) := by
  have h := center_bias_characterization 10 (by norm_num) ((5 : Int), (5 : Int))
    ((0 : Int), (0 : Int))
  have hc : CenterWeightStrategy.evaluate_move 10 ((5 : Int), (5 : Int)) = 1 :=
    h.2.2.1.mpr (by norm_num)
  exact ⟨hc, h.2.2.2 (by decide)⟩

end Bataille
